import Mathlib

/-!
Shallow embedding of the hunk-parsing and comment-anchoring core of the
`corey` review LSP (src/diff.rs and the `ReviewComment` part of src/main.rs).

Rust strings are modelled as `List Char` (the inputs of interest are
line-oriented text; `str::find` byte indices coincide with character indices
on such inputs for the purposes of the newline counting done by the code).
Rust `u32` values are modelled as `Nat`; the code's `u32` subtractions are
modelled with an explicit checked subtraction (`csub`) whose `none` result
stands for the arithmetic-underflow panic of a debug build.  Every claim
below is settled at inputs where no underflow occurs, so the choice between
panic and wrap-around semantics never matters there.

Fallible Rust functions returning `Result<_, Error>` are modelled with the
three-valued `PRes`: `PRes.ok`, `PRes.err` (the `Err` return), and
`PRes.panic` (an abort: `unwrap`, `panic!`, slice-range reversal, vector
indexing out of bounds, or checked-subtraction underflow).
-/

abbrev Str := List Char

/-- Coerce a Lean string literal to the `List Char` representation. -/
def str (s : String) : Str := s.toList

/-- Rust `str::split('\n')`: yields the (possibly empty) segments between
newline characters; a trailing newline yields a trailing empty segment. -/
def splitNl : Str → List Str
  | [] => [[]]
  | c :: cs =>
    if c = '\n' then [] :: splitNl cs
    else
      match splitNl cs with
      | [] => [[c]]
      | p :: ps => (c :: p) :: ps

/-- Rust `str::starts_with(pat)` for a literal pattern. -/
def starts_with : Str → Str → Bool
  | _, [] => true
  | [], _ :: _ => false
  | c :: t, p :: pt => if c = p then starts_with t pt else false

/-- Rust `str::trim_start_matches(p)` for a one-character pattern. -/
def trim_start_matching (s : Str) (p : Char) : Str := s.dropWhile (fun c => c = p)

/-- Rust `str::trim_end_matches(p)` for a one-character pattern. -/
def trim_end_matching (s : Str) (p : Char) : Str :=
  ((s.reverse).dropWhile (fun c => c = p)).reverse

/-- Rust `str::find(p)` for a one-character pattern. -/
def find_char (s : Str) (p : Char) : Option Nat := List.findIdx? (fun c => c = p) s

/-- Rust `str::strip_suffix("\n")`, fused with the `match`: remove one
trailing newline character if present, otherwise return the input. -/
def strip_newline_suffix (s : Str) : Str :=
  match s.reverse with
  | [] => s
  | c :: rest => if c = '\n' then rest.reverse else s

/-- First index at which `needle` occurs in `hay` (Rust `str::find(&str)`). -/
def substrPos : Str → Str → Option Nat
  | hay, needle =>
    if starts_with hay needle then some 0
    else
      match hay with
      | [] => none
      | _ :: t => (substrPos t needle).map (fun n => n + 1)

/-- Rust `str::contains` (used by `subject.find(..)` + `is_some` patterns). -/
def contains_str (s pat : Str) : Bool := (substrPos s pat).isSome

/-- Digit-string value; helper for `parse_u32`. -/
def parse_digits (s : Str) : Option Nat :=
  if s.isEmpty then none
  else if s.all Char.isDigit then
    some (s.foldl (fun acc c => acc * 10 + (c.toNat - 48)) 0)
  else none

/-- Rust `str::parse::<u32>()`: an optional leading '+' followed by at least
one digit.  (Values beyond `u32::MAX` are not modelled; no claim involves
them.) -/
def parse_u32 (s : Str) : Option Nat :=
  match s with
  | [] => none
  | c :: rest => if c = '+' then parse_digits rest else parse_digits s

/-- Checked `u32` subtraction: `none` models the debug-build underflow panic. -/
def csub (a b : Nat) : Option Nat := if b ≤ a then some (a - b) else none

/-- `ends_with("\n")` on the raw hunk text. -/
def ends_with_newline (s : Str) : Bool :=
  match s.getLast? with
  | some c => c = '\n'
  | none => false

/-- `diff::Error` from src/diff.rs. -/
inductive DiffError where
  | Parse
  | Invalid
deriving DecidableEq, Repr

/-- Three-valued outcome of a fallible Rust call: `panic` models an abort
(`unwrap`, `panic!`, out-of-bounds indexing, reversed slice bounds,
checked-subtraction underflow). -/
inductive PRes (α : Type) where
  | panic
  | err (e : DiffError)
  | ok (a : α)
deriving DecidableEq, Repr

/-- `LineType` from src/diff.rs. -/
inductive LineType where
  | Context
  | Addition
  | Deletion
deriving DecidableEq, Repr

/-- `CommentSide` as consumed by `Diff::text_part` (LL/RR are the two
same-side requests, LR/RL the unimplemented cross-side ones). -/
inductive CommentSide where
  | LL
  | RR
  | LR
  | RL
deriving DecidableEq, Repr

/-- `SubjectType` from src/main.rs. -/
inductive SubjectType where
  | Line
  | File
deriving DecidableEq, Repr

/-- The `Diff` struct from src/diff.rs.  `std::ops::Range<u32>` fields are
pairs `(start, stop)`. -/
structure Diff where
  path : Str
  original_range : Nat × Nat
  range : Nat × Nat
  left_lines : List Str
  right_lines : List Str
  context : List (Nat × Nat)
  associated_line_pairs : List (Nat × Nat)
  trailing_newline : Bool
deriving DecidableEq, Repr

/-- The mutable locals of `Diff::from_only_hunk`, threaded through the
`for line in hunk.split('\n')` loop. -/
structure PState where
  left_lines : List Str
  right_lines : List Str
  right_start : Nat
  right_stop : Nat
  left_start : Nat
  left_stop : Nat
  pairs : List (Nat × Nat)
  context : List (Nat × Nat)
  context_start : Nat
  prev : LineType
deriving DecidableEq, Repr

/-- Loop-entry values of the locals of `from_only_hunk`. -/
def init_state : PState :=
  { left_lines := [], right_lines := [], right_start := 0, right_stop := 0,
    left_start := 0, left_stop := 0, pairs := [], context := [],
    context_start := 0, prev := LineType.Context }

/-- The header line after
`trim_start_matches("@").trim_start_matches(" ").trim_end_matches(" ").trim_end_matches("@")`. -/
def header_data (line : Str) : Str :=
  trim_end_matching (trim_end_matching
    (trim_start_matching (trim_start_matching line '@') ' ') ' ') '@'

/-- The left numeric token of a header: `data[start_index..original_stop_index]`
followed by `split(",").next()`. -/
def left_tok (data : Str) (start_index original_stop_index : Nat) : Str :=
  ((data.drop start_index).take (original_stop_index - start_index)).takeWhile
    (fun c => c ≠ ',')

/-- The right numeric token of a header: `data[start_index..]` trimmed of
leading spaces, then `split(",").next()`. -/
def right_tok (data : Str) (start_index : Nat) : Str :=
  (trim_start_matching (data.drop start_index) ' ').takeWhile (fun c => c ≠ ',')

/-- The `line.starts_with("@@")` branch of the loop body of
`from_only_hunk`: extract `(left_start, right_start)` from a hunk header.
`PRes.panic` models the slice panic when the first `-` lies beyond the first
space (`data[start_index..original_stop_index]` with reversed bounds). -/
def parse_header (line : Str) : PRes (Nat × Nat) :=
  let data := header_data line
  match find_char data '-' with
  | none => PRes.err DiffError.Parse
  | some di =>
    match find_char data ' ' with
    | none => PRes.err DiffError.Parse
    | some osi =>
      if di + 1 ≤ osi then
        match parse_u32 (left_tok data (di + 1) osi) with
        | none => PRes.err DiffError.Invalid
        | some ls =>
          match find_char data '+' with
          | none => PRes.err DiffError.Parse
          | some pi =>
            match parse_u32 (right_tok data (pi + 1)) with
            | none => PRes.err DiffError.Invalid
            | some rs => PRes.ok (ls, rs)
      else PRes.panic

/-- Leading-character classification of a non-header body line
(`' '` / `'-'` / `'+'`); `none` is the `return Err(Error::Invalid)` case. -/
def classify (line : Str) : Option LineType :=
  match line.head? with
  | some c =>
    if c = ' ' then some LineType.Context
    else if c = '-' then some LineType.Deletion
    else if c = '+' then some LineType.Addition
    else none
  | none => none

/-- The successful body-line step of the loop of `from_only_hunk`: push the
stripped line, advance the stop counters, record the associated line pair,
and do the context-run bookkeeping, exactly in the source's order. -/
def body_step (st : PState) (lt : LineType) (rest : Str) : PState :=
  let st1 :=
    match lt with
    | LineType.Context =>
      { st with left_lines := st.left_lines ++ [rest], left_stop := st.left_stop + 1,
                right_lines := st.right_lines ++ [rest], right_stop := st.right_stop + 1 }
    | LineType.Addition =>
      { st with right_lines := st.right_lines ++ [rest], right_stop := st.right_stop + 1 }
    | LineType.Deletion =>
      { st with left_lines := st.left_lines ++ [rest], left_stop := st.left_stop + 1 }
  let st2 := { st1 with pairs := st1.pairs ++ [(st1.left_stop, st1.right_stop)] }
  let st3 :=
    if st2.prev ≠ lt then
      match lt with
      | LineType.Context => { st2 with context_start := st2.right_stop - 1 }
      | LineType.Addition =>
        if st2.prev = LineType.Context then
          { st2 with context := st2.context ++ [(st2.context_start, st2.right_stop)] }
        else st2
      | LineType.Deletion =>
        if st2.prev = LineType.Context then
          { st2 with context := st2.context ++ [(st2.context_start, st2.right_stop)] }
        else st2
    else st2
  { st3 with prev := lt }

/-- One iteration of the `for line in hunk.split('\n')` loop. -/
def process_line (st : PState) (line : Str) : PRes PState :=
  if starts_with line (str "@@") then
    match parse_header line with
    | PRes.panic => PRes.panic
    | PRes.err e => PRes.err e
    | PRes.ok (ls, rs) =>
      PRes.ok { st with left_start := ls, left_stop := ls,
                        right_start := rs, right_stop := rs, context_start := rs,
                        pairs := st.pairs ++ [(ls, rs)] }
  else
    match classify line with
    | none => PRes.err DiffError.Invalid
    | some lt => PRes.ok (body_step st lt (line.drop 1))

/-- The whole loop of `from_only_hunk`. -/
def run_lines (st : PState) : List Str → PRes PState
  | [] => PRes.ok st
  | l :: ls =>
    match process_line st l with
    | PRes.ok st2 => run_lines st2 ls
    | PRes.err e => PRes.err e
    | PRes.panic => PRes.panic

/-- `Diff::from_only_hunk` from src/diff.rs. -/
def from_only_hunk (hunk : Str) (path : Str) : PRes Diff :=
  if starts_with hunk (str "@@") then
    match run_lines init_state (splitNl hunk) with
    | PRes.ok st =>
      PRes.ok { path := path,
                original_range := (st.left_start, st.left_stop),
                range := (st.right_start, st.right_stop),
                left_lines := st.left_lines,
                right_lines := st.right_lines,
                context := st.context,
                associated_line_pairs := st.pairs,
                trailing_newline := ends_with_newline hunk }
    | PRes.err e => PRes.err e
    | PRes.panic => PRes.panic
  else PRes.err DiffError.Parse

/-- Each line followed by `"\n"`, concatenated: the accumulator of
`Diff::text` / `Diff::original_text` before the trailing-newline fixup. -/
def joinNl (lines : List Str) : Str := (lines.map (fun l => l ++ str "\n")).flatten

/-- `Diff::text` from src/diff.rs. -/
def Diff.text (d : Diff) : Str :=
  let out := joinNl d.right_lines
  if d.trailing_newline then out else strip_newline_suffix out

/-- `Diff::original_text` from src/diff.rs. -/
def Diff.original_text (d : Diff) : Str :=
  let out := joinNl d.left_lines
  if d.trailing_newline then out else strip_newline_suffix out

/-- The `for line_index in start..end` loop of `Diff::text_part`: render
`count` lines beginning at index `i`; `none` models the out-of-bounds
indexing panic. -/
def render_count (lines : List Str) (i : Nat) : Nat → Option Str
  | 0 => some []
  | n + 1 =>
    match lines.get? i with
    | some l => (render_count lines (i + 1) n).map (fun r => l ++ '\n' :: r)
    | none => none

/-- The common LL/RR body of `Diff::text_part`, given the selected line
vector and the side projection applied to `associated_line_pairs`. -/
def text_part_side (d : Diff) (lines : List Str) (proj : Nat × Nat → Nat)
    (comment : Nat × Nat) : PRes Str :=
  match d.associated_line_pairs.head?, d.associated_line_pairs.getLast? with
  | some fp, some lp =>
    let text_start := proj fp
    let text_end := proj lp
    if comment.1 < text_start ∨ comment.2 > text_end then PRes.err DiffError.Invalid
    else
      let start := comment.1 - text_start
      if comment.1 ≤ start + comment.2 then
        let stop := start + comment.2 - comment.1
        match render_count lines start (stop - start) with
        | some out =>
          PRes.ok (if d.trailing_newline then out else strip_newline_suffix out)
        | none => PRes.panic
      else PRes.panic
  | _, _ => PRes.panic

/-- `Diff::text_part` from src/diff.rs (the `async` wrapper is irrelevant:
the body is pure).  Cross-side requests hit `panic!("not implemented")`. -/
def text_part (d : Diff) (comment : Nat × Nat) (side : CommentSide) : PRes Str :=
  match side with
  | CommentSide.LR => PRes.panic
  | CommentSide.RL => PRes.panic
  | CommentSide.LL => text_part_side d d.left_lines (fun p => p.1) comment
  | CommentSide.RR => text_part_side d d.right_lines (fun p => p.2) comment

/-- The inner loop of `Diff::get_context` for one recorded range: render the
right-side lines with right-coordinates in `[i, i+count)`, each followed by
a newline; `none` models either the `i - range.start` underflow panic or the
indexing panic. -/
def render_ctx_lines (lines : List Str) (rstart : Nat) (i : Nat) : Nat → Option Str
  | 0 => some []
  | n + 1 =>
    if rstart ≤ i then
      match lines.get? (i - rstart) with
      | some l => (render_ctx_lines lines rstart (i + 1) n).map (fun r => l ++ '\n' :: r)
      | none => none
    else none

/-- All recorded context runs, rendered in order. -/
def render_all_ctx (lines : List Str) (rstart : Nat) : List (Nat × Nat) → Option (List Str)
  | [] => some []
  | r :: rest =>
    match render_ctx_lines lines rstart r.1 (r.2 - r.1) with
    | some s => (render_all_ctx lines rstart rest).map (fun xs => s :: xs)
    | none => none

/-- `Diff::get_context` from src/diff.rs.  The outer `PRes` carries the
possible indexing/underflow panic; the inner `Option` is the Rust
`Option<Vec<String>>` (`none` = "no context"). -/
def get_context (d : Diff) (_ignore_starting : Option Nat) : PRes (Option (List Str)) :=
  if d.context.length = 0 then PRes.ok none
  else
    match render_all_ctx d.right_lines d.range.1 d.context with
    | some runs => PRes.ok (some runs)
    | none => PRes.panic

/-- The fields of `ReviewComment` (src/main.rs) consumed by `line_range` and
`get_subject_type`; the remaining fields (ids, body, user, commit ids,
`start_side`) are never read by the anchoring logic and are omitted. -/
structure ReviewComment where
  line : Option Nat
  original_line : Nat
  start_line : Option Nat
  original_start_line : Option Nat
  diff_hunk : Str
  path : Str
  subject_type : Option Str
deriving DecidableEq, Repr

/-- `ReviewComment::get_subject_type` from src/main.rs. -/
def get_subject_type (c : ReviewComment) : SubjectType :=
  match c.subject_type with
  | some subject =>
    if contains_str subject (str "line") then SubjectType.Line
    else if contains_str subject (str "file") then SubjectType.File
    else SubjectType.Line
  | none => SubjectType.Line

/-- `ReviewComment::line_range` from src/main.rs (the non-`debug` build; the
`debug` build only adds logging).  The result is the pair `(beg, end)` of
the produced `lsp_types::Range` (both positions have character 0); `none`
models a panic: the `.unwrap()` on `Diff::from_only_hunk`, or a `u32`
subtraction underflow. -/
def line_range (c : ReviewComment) (text : Str) : Option (Nat × Nat) :=
  let e := c.original_line
  match (match c.original_start_line with
         | some l => csub l 1
         | none => csub e 1) with
  | none => none
  | some b =>
    match get_subject_type c with
    | SubjectType.File => some (b, e)
    | SubjectType.Line =>
      match csub e b with
      | none => none
      | some line_diff =>
        match from_only_hunk c.diff_hunk c.path with
        | PRes.ok d =>
          let commented_on_text := Diff.text d
          let beg :=
            if commented_on_text.length = 0 then b
            else
              match substrPos text commented_on_text with
              | some index => (text.take index).count '\n'
              | none => b
          some (beg, beg + line_diff)
        | PRes.err _ => none
        | PRes.panic => none

/-- A single-hunk input: no line after the first is a hunk header.  (The
spec's scope is a single unified-diff hunk; `from_only_hunk` fed a
multi-hunk text would re-enter the header branch and reset its counters.) -/
def singleHunk (hunk : Str) : Prop :=
  ∀ l ∈ (splitNl hunk).tail, starts_with l (str "@@") = false

/-- Right-coordinate lines joined by newlines with no trailing separator
(what "joined lines without a trailing line separator" denotes). -/
def joinSep : List Str → Str
  | [] => []
  | [a] => a
  | a :: b :: t => a ++ '\n' :: joinSep (b :: t)

/-- The worked hunk of the specification: `@@ -1,4 +1,4 @@` with body
`" a", "-b", "+B", " c", " d"` (no trailing newline). -/
def exHunk : Str := str "@@ -1,4 +1,4 @@\n a\n-b\n+B\n c\n d"

/-- The `Diff` value that `from_only_hunk` produces for `exHunk`. -/
def exDiff : Diff :=
  { path := str "f", original_range := (1, 5), range := (1, 5),
    left_lines := [str "a", str "b", str "c", str "d"],
    right_lines := [str "a", str "B", str "c", str "d"],
    context := [(1, 2)],
    associated_line_pairs := [(1, 1), (2, 2), (3, 2), (3, 3), (4, 4), (5, 5)],
    trailing_newline := false }

/-- The insertion-only hunk named by claim C2: header `@@ -5,0 +5,2 @@`
followed by two addition lines. -/
def c2Hunk : Str := str "@@ -5,0 +5,2 @@\n+a\n+b"

/-- The `Diff` value that `from_only_hunk` produces for `c2Hunk`. -/
def c2Diff : Diff :=
  { path := str "f", original_range := (5, 5), range := (5, 7),
    left_lines := [],
    right_lines := [str "a", str "b"],
    context := [(5, 6)],
    associated_line_pairs := [(5, 5), (5, 6), (5, 7)],
    trailing_newline := false }

/-- A Line-subject comment whose hunk replaces line 1 (`-a` / `+b`); its
recorded line number (1) is far from where `b` sits in the live document. -/
def wComment : ReviewComment :=
  { line := none, original_line := 1, start_line := none, original_start_line := none,
    diff_hunk := str "@@ -1,1 +1,1 @@\n-a\n+b", path := str "f", subject_type := none }

/-- A live document in which the rendered text `b` of `wComment`'s hunk now
sits on zero-based line 2. -/
def wDoc : Str := str "x\ny\nb\nz"

/-- A Line-subject comment whose `diff_hunk` does not parse (no `@@`). -/
def cexComment : ReviewComment :=
  { line := none, original_line := 1, start_line := none, original_start_line := none,
    diff_hunk := str "xx", path := str "f", subject_type := none }

/-- A File-subject comment (subject string contains "file") spanning
original lines 3..5. -/
def fileComment : ReviewComment :=
  { line := none, original_line := 5, start_line := none, original_start_line := some 3,
    diff_hunk := str "", path := str "f", subject_type := some (str "file") }

/-- The ordering invariant claimed for recorded context runs: each run ends
no later than the next one starts (and hence starts no later either). -/
def ctxR (a b : Nat × Nat) : Prop := a.2 ≤ b.1 ∧ a.1 ≤ b.1

/-- The loop invariant of `from_only_hunk`'s body, relative to the header
values `(ls, rs)`: the stop counters track the line-vector lengths, the
recorded context runs are ordered and bounded by the right cursor, the open
run start is sane while the previous classification is `Context`, and
`associated_line_pairs` starts at the header pair and ends at the current
cursor pair. -/
structure LoopInv (ls rs : Nat) (st : PState) : Prop where
  hls : st.left_start = ls
  hrs : st.right_start = rs
  hlstop : st.left_stop = ls + st.left_lines.length
  hrstop : st.right_stop = rs + st.right_lines.length
  hctx : List.Pairwise ctxR st.context
  hctxb : ∀ r ∈ st.context, r.1 ≤ r.2 ∧ r.2 ≤ st.right_stop
  hprev : st.prev = LineType.Context →
    st.context_start ≤ st.right_stop ∧ ∀ r ∈ st.context, r.2 ≤ st.context_start
  hhead : st.pairs.head? = some (ls, rs)
  hlast : st.pairs.getLast? = some (st.left_stop, st.right_stop)

/-- The `Diff` value that `from_only_hunk` produces for `wComment`'s hunk. -/
def wDiff : Diff :=
  { path := str "f", original_range := (1, 2), range := (1, 2),
    left_lines := [str "a"], right_lines := [str "b"], context := [(1, 1)],
    associated_line_pairs := [(1, 1), (2, 1), (2, 2)], trailing_newline := false }

/-- `singleHunk` is decidable, so witnesses can discharge it by evaluation. -/
instance singleHunk_decidable (hunk : Str) : Decidable (singleHunk hunk) :=
  inferInstanceAs (Decidable (∀ l ∈ (splitNl hunk).tail, starts_with l (str "@@") = false))

/-- The header-structure failures that produce `Error::Parse`: no `-` token,
no space separator, or (once the left number parses) no `+` token. -/
def header_missing_tok (line : Str) : Prop :=
  find_char (header_data line) '-' = none ∨
  find_char (header_data line) ' ' = none ∨
  (∃ di osi v, find_char (header_data line) '-' = some di ∧
     find_char (header_data line) ' ' = some osi ∧ di + 1 ≤ osi ∧
     parse_u32 (left_tok (header_data line) (di + 1) osi) = some v ∧
     find_char (header_data line) '+' = none)

theorem str_atat : str "@@" = ['@', '@'] := rfl

theorem str_nl : str "\n" = ['\n'] := rfl

theorem splitNl_ne_nil (s : Str) : splitNl s ≠ [] := by
  cases s with
  | nil => simp [splitNl]
  | cons c cs =>
    simp only [splitNl]
    split
    · simp
    · split <;> simp

theorem splitNl_eq_nil_singleton (s : Str) (h : splitNl s = [[]]) : s = [] := by
  cases s with
  | nil => rfl
  | cons c cs =>
    exfalso
    simp only [splitNl] at h
    split at h
    · have := splitNl_ne_nil cs
      simp at h
      exact this h
    · split at h <;> simp_all

theorem splitNl_cons_nl (c : Char) (cs : Str) (h : c = '\n') :
    splitNl (c :: cs) = [] :: splitNl cs := by
  subst h; simp [splitNl]

theorem splitNl_cons_other (c : Char) (cs p : Str) (ps : List Str)
    (h : ¬ c = '\n') (hs : splitNl cs = p :: ps) :
    splitNl (c :: cs) = (c :: p) :: ps := by
  simp only [splitNl, if_neg h, hs]

theorem splitNl_getLast_nl (s : Str) (h : ends_with_newline s = true) :
    (splitNl s).getLast? = some [] := by
  induction s with
  | nil => simp [ends_with_newline] at h
  | cons c cs ih =>
    cases cs with
    | nil =>
      have hc : c = '\n' := by simpa [ends_with_newline] using h
      simp [splitNl, hc]
    | cons c2 cs2 =>
      have h2 : ends_with_newline (c2 :: cs2) = true := by
        simpa [ends_with_newline, List.getLast?_cons_cons] using h
      have ihh := ih h2
      by_cases hc : c = '\n'
      · cases hs : splitNl (c2 :: cs2) with
        | nil => exact absurd hs (splitNl_ne_nil _)
        | cons p ps =>
          rw [hs] at ihh
          rw [splitNl_cons_nl c _ hc, hs]
          simpa [List.getLast?_cons_cons] using ihh
      · cases hs : splitNl (c2 :: cs2) with
        | nil => exact absurd hs (splitNl_ne_nil _)
        | cons p ps =>
          rw [hs] at ihh
          cases ps with
          | nil =>
            have hp : p = [] := by simpa using ihh
            have : (c2 :: cs2 : Str) = [] := by
              apply splitNl_eq_nil_singleton
              rw [hs, hp]
            exact absurd this (by simp)
          | cons q qs =>
            rw [splitNl_cons_other c _ p (q :: qs) hc hs]
            simpa [List.getLast?_cons_cons] using ihh

theorem mem_splitNl_nil_of_ends (s : Str) (h : ends_with_newline s = true) :
    [] ∈ splitNl s :=
  List.mem_of_getLast?_eq_some (splitNl_getLast_nl s h)

theorem process_line_nil (st : PState) :
    process_line st [] = PRes.err DiffError.Invalid := by
  have h1 : starts_with [] (str "@@") = false := by decide
  simp [process_line, h1, classify]

theorem run_lines_ne_ok_of_mem_nil :
    ∀ (lines : List Str) (st : PState), [] ∈ lines →
      ∀ st', run_lines st lines ≠ PRes.ok st' := by
  intro lines
  induction lines with
  | nil => intro st h; simp at h
  | cons l ls ih =>
    intro st h st'
    rcases List.mem_cons.mp h with h1 | h1
    · rw [← h1]
      simp [run_lines, process_line_nil]
    · cases hp : process_line st l with
      | ok st2 => simp only [run_lines, hp]; exact ih st2 h1 st'
      | err e => simp [run_lines, hp]
      | panic => simp [run_lines, hp]

theorem from_only_hunk_ok_elim (hunk path : Str) (d : Diff)
    (h : from_only_hunk hunk path = PRes.ok d) :
    starts_with hunk (str "@@") = true ∧
    ∃ st, run_lines init_state (splitNl hunk) = PRes.ok st ∧
      d = { path := path,
            original_range := (st.left_start, st.left_stop),
            range := (st.right_start, st.right_stop),
            left_lines := st.left_lines, right_lines := st.right_lines,
            context := st.context, associated_line_pairs := st.pairs,
            trailing_newline := ends_with_newline hunk } := by
  by_cases hs : starts_with hunk (str "@@") = true
  · refine ⟨hs, ?_⟩
    rw [from_only_hunk, if_pos hs] at h
    cases hr : run_lines init_state (splitNl hunk) with
    | ok st =>
      rw [hr] at h
      refine ⟨st, rfl, ?_⟩
      injection h with h2
      exact h2.symm
    | err e => rw [hr] at h; cases h
    | panic => rw [hr] at h; cases h
  · rw [from_only_hunk, if_neg hs] at h
    cases h

theorem from_only_hunk_trailing (hunk path : Str) (d : Diff)
    (h : from_only_hunk hunk path = PRes.ok d) :
    ends_with_newline hunk = false ∧ d.trailing_newline = false := by
  obtain ⟨hs, st, hr, hd⟩ := from_only_hunk_ok_elim hunk path d h
  cases hb : ends_with_newline hunk with
  | false => exact ⟨rfl, by rw [hd]; simp [hb]⟩
  | true =>
    exact absurd hr (run_lines_ne_ok_of_mem_nil _ _ (mem_splitNl_nil_of_ends hunk hb) st)

theorem strip_newline_suffix_append (x y : Str) (hy : y ≠ []) :
    strip_newline_suffix (x ++ y) = x ++ strip_newline_suffix y := by
  obtain ⟨c, r, hr⟩ : ∃ c r, y.reverse = c :: r := by
    cases hyr : y.reverse with
    | nil => exact absurd (by simpa using hyr) hy
    | cons c r => exact ⟨c, r, rfl⟩
  have hxy : (x ++ y).reverse = c :: (r ++ x.reverse) := by
    rw [List.reverse_append, hr]; rfl
  unfold strip_newline_suffix
  rw [hxy, hr]
  by_cases hc : c = '\n'
  · simp [hc]
  · simp [hc]

theorem joinNl_cons (x : Str) (l : List Str) :
    joinNl (x :: l) = x ++ '\n' :: joinNl l := by
  simp [joinNl, str_nl]

theorem joinNl_ne_nil (x : Str) (l : List Str) : joinNl (x :: l) ≠ [] := by
  rw [joinNl_cons]
  simp

theorem strip_joinNl (L : List Str) :
    strip_newline_suffix (joinNl L) = joinSep L := by
  induction L with
  | nil => rfl
  | cons a t ih =>
    cases t with
    | nil =>
      have h1 : joinNl [a] = a ++ ['\n'] := by simp [joinNl, str_nl]
      rw [h1, strip_newline_suffix_append a ['\n'] (by simp)]
      simp [strip_newline_suffix, joinSep]
    | cons b t2 =>
      have h1 : joinNl (a :: b :: t2) = (a ++ ['\n']) ++ joinNl (b :: t2) := by
        rw [joinNl_cons]; simp
      rw [h1, strip_newline_suffix_append _ _ (joinNl_ne_nil b t2), ih]
      simp [joinSep]

theorem body_step_inv (ls rs : Nat) (st : PState) (lt : LineType) (rest : Str)
    (hi : LoopInv ls rs st) : LoopInv ls rs (body_step st lt rest) := by
  obtain ⟨h1, h2, h3, h4, h5, h6, h7, h8, h9⟩ := hi
  cases lt with
  | Context =>
    cases hp : st.prev with
    | Context =>
      have heq : body_step st LineType.Context rest =
          { st with left_lines := st.left_lines ++ [rest],
                    right_lines := st.right_lines ++ [rest],
                    left_stop := st.left_stop + 1, right_stop := st.right_stop + 1,
                    pairs := st.pairs ++ [(st.left_stop + 1, st.right_stop + 1)],
                    prev := LineType.Context } := by
        simp [body_step, hp]
      rw [heq]
      refine ⟨h1, h2, ?_, ?_, h5, ?_, ?_, ?_, ?_⟩
      · simp only [List.length_append, List.length_cons, List.length_nil]; omega
      · simp only [List.length_append, List.length_cons, List.length_nil]; omega
      · intro r hr; have := h6 r hr; dsimp only; exact ⟨this.1, by omega⟩
      · intro _
        obtain ⟨ha, hb⟩ := h7 hp
        dsimp only
        exact ⟨by omega, fun r hr => hb r hr⟩
      · rw [List.head?_append, h8]; rfl
      · exact List.getLast?_concat _
    | Addition =>
      have heq : body_step st LineType.Context rest =
          { st with left_lines := st.left_lines ++ [rest],
                    right_lines := st.right_lines ++ [rest],
                    left_stop := st.left_stop + 1, right_stop := st.right_stop + 1,
                    pairs := st.pairs ++ [(st.left_stop + 1, st.right_stop + 1)],
                    context_start := st.right_stop + 1 - 1,
                    prev := LineType.Context } := by
        simp [body_step, hp]
      rw [heq]
      refine ⟨h1, h2, ?_, ?_, h5, ?_, ?_, ?_, ?_⟩
      · simp only [List.length_append, List.length_cons, List.length_nil]; omega
      · simp only [List.length_append, List.length_cons, List.length_nil]; omega
      · intro r hr; have := h6 r hr; dsimp only; exact ⟨this.1, by omega⟩
      · intro _
        dsimp only
        refine ⟨by omega, fun r hr => ?_⟩
        have := h6 r hr
        omega
      · rw [List.head?_append, h8]; rfl
      · exact List.getLast?_concat _
    | Deletion =>
      have heq : body_step st LineType.Context rest =
          { st with left_lines := st.left_lines ++ [rest],
                    right_lines := st.right_lines ++ [rest],
                    left_stop := st.left_stop + 1, right_stop := st.right_stop + 1,
                    pairs := st.pairs ++ [(st.left_stop + 1, st.right_stop + 1)],
                    context_start := st.right_stop + 1 - 1,
                    prev := LineType.Context } := by
        simp [body_step, hp]
      rw [heq]
      refine ⟨h1, h2, ?_, ?_, h5, ?_, ?_, ?_, ?_⟩
      · simp only [List.length_append, List.length_cons, List.length_nil]; omega
      · simp only [List.length_append, List.length_cons, List.length_nil]; omega
      · intro r hr; have := h6 r hr; dsimp only; exact ⟨this.1, by omega⟩
      · intro _
        dsimp only
        refine ⟨by omega, fun r hr => ?_⟩
        have := h6 r hr
        omega
      · rw [List.head?_append, h8]; rfl
      · exact List.getLast?_concat _
  | Addition =>
    cases hp : st.prev with
    | Addition =>
      have heq : body_step st LineType.Addition rest =
          { st with right_lines := st.right_lines ++ [rest],
                    right_stop := st.right_stop + 1,
                    pairs := st.pairs ++ [(st.left_stop, st.right_stop + 1)],
                    prev := LineType.Addition } := by
        simp [body_step, hp]
      rw [heq]
      refine ⟨h1, h2, h3, ?_, h5, ?_, ?_, ?_, ?_⟩
      · simp only [List.length_append, List.length_cons, List.length_nil]; omega
      · intro r hr; have := h6 r hr; dsimp only; exact ⟨this.1, by omega⟩
      · intro hc; dsimp only at hc; simp at hc
      · rw [List.head?_append, h8]; rfl
      · exact List.getLast?_concat _
    | Deletion =>
      have heq : body_step st LineType.Addition rest =
          { st with right_lines := st.right_lines ++ [rest],
                    right_stop := st.right_stop + 1,
                    pairs := st.pairs ++ [(st.left_stop, st.right_stop + 1)],
                    prev := LineType.Addition } := by
        simp [body_step, hp]
      rw [heq]
      refine ⟨h1, h2, h3, ?_, h5, ?_, ?_, ?_, ?_⟩
      · simp only [List.length_append, List.length_cons, List.length_nil]; omega
      · intro r hr; have := h6 r hr; dsimp only; exact ⟨this.1, by omega⟩
      · intro hc; dsimp only at hc; simp at hc
      · rw [List.head?_append, h8]; rfl
      · exact List.getLast?_concat _
    | Context =>
      have heq : body_step st LineType.Addition rest =
          { st with right_lines := st.right_lines ++ [rest],
                    right_stop := st.right_stop + 1,
                    pairs := st.pairs ++ [(st.left_stop, st.right_stop + 1)],
                    context := st.context ++ [(st.context_start, st.right_stop + 1)],
                    prev := LineType.Addition } := by
        simp [body_step, hp]
      obtain ⟨hcs, hub⟩ := h7 hp
      rw [heq]
      refine ⟨h1, h2, h3, ?_, ?_, ?_, ?_, ?_, ?_⟩
      · simp only [List.length_append, List.length_cons, List.length_nil]; omega
      · rw [List.pairwise_append]
        refine ⟨h5, by simp, ?_⟩
        intro a ha b hb
        rw [List.mem_singleton] at hb
        subst hb
        exact ⟨hub a ha, le_trans (h6 a ha).1 (hub a ha)⟩
      · intro r hr
        dsimp only
        rcases List.mem_append.mp hr with hin | hin
        · have := h6 r hin; exact ⟨this.1, by omega⟩
        · rw [List.mem_singleton] at hin
          subst hin
          dsimp only
          exact ⟨by omega, by omega⟩
      · intro hc; dsimp only at hc; simp at hc
      · rw [List.head?_append, h8]; rfl
      · exact List.getLast?_concat _
  | Deletion =>
    cases hp : st.prev with
    | Deletion =>
      have heq : body_step st LineType.Deletion rest =
          { st with left_lines := st.left_lines ++ [rest],
                    left_stop := st.left_stop + 1,
                    pairs := st.pairs ++ [(st.left_stop + 1, st.right_stop)],
                    prev := LineType.Deletion } := by
        simp [body_step, hp]
      rw [heq]
      refine ⟨h1, h2, ?_, h4, h5, h6, ?_, ?_, ?_⟩
      · simp only [List.length_append, List.length_cons, List.length_nil]; omega
      · intro hc; dsimp only at hc; simp at hc
      · rw [List.head?_append, h8]; rfl
      · exact List.getLast?_concat _
    | Addition =>
      have heq : body_step st LineType.Deletion rest =
          { st with left_lines := st.left_lines ++ [rest],
                    left_stop := st.left_stop + 1,
                    pairs := st.pairs ++ [(st.left_stop + 1, st.right_stop)],
                    prev := LineType.Deletion } := by
        simp [body_step, hp]
      rw [heq]
      refine ⟨h1, h2, ?_, h4, h5, h6, ?_, ?_, ?_⟩
      · simp only [List.length_append, List.length_cons, List.length_nil]; omega
      · intro hc; dsimp only at hc; simp at hc
      · rw [List.head?_append, h8]; rfl
      · exact List.getLast?_concat _
    | Context =>
      have heq : body_step st LineType.Deletion rest =
          { st with left_lines := st.left_lines ++ [rest],
                    left_stop := st.left_stop + 1,
                    pairs := st.pairs ++ [(st.left_stop + 1, st.right_stop)],
                    context := st.context ++ [(st.context_start, st.right_stop)],
                    prev := LineType.Deletion } := by
        simp [body_step, hp]
      obtain ⟨hcs, hub⟩ := h7 hp
      rw [heq]
      refine ⟨h1, h2, ?_, h4, ?_, ?_, ?_, ?_, ?_⟩
      · simp only [List.length_append, List.length_cons, List.length_nil]; omega
      · rw [List.pairwise_append]
        refine ⟨h5, by simp, ?_⟩
        intro a ha b hb
        rw [List.mem_singleton] at hb
        subst hb
        exact ⟨hub a ha, le_trans (h6 a ha).1 (hub a ha)⟩
      · intro r hr
        rcases List.mem_append.mp hr with hin | hin
        · exact h6 r hin
        · rw [List.mem_singleton] at hin
          subst hin
          exact ⟨hcs, le_refl _⟩
      · intro hc; dsimp only at hc; simp at hc
      · rw [List.head?_append, h8]; rfl
      · exact List.getLast?_concat _

theorem process_line_body (st st2 : PState) (line : Str)
    (hnp : starts_with line (str "@@") = false)
    (h : process_line st line = PRes.ok st2) :
    ∃ lt, classify line = some lt ∧ st2 = body_step st lt (line.drop 1) := by
  rw [process_line] at h
  rw [hnp] at h
  simp only [Bool.false_eq_true, if_false] at h
  cases hc : classify line with
  | none => rw [hc] at h; cases h
  | some lt =>
    rw [hc] at h
    injection h with h2
    exact ⟨lt, rfl, h2.symm⟩

theorem run_lines_inv (ls rs : Nat) :
    ∀ (lines : List Str) (st st' : PState),
      (∀ l ∈ lines, starts_with l (str "@@") = false) →
      run_lines st lines = PRes.ok st' → LoopInv ls rs st → LoopInv ls rs st' := by
  intro lines
  induction lines with
  | nil =>
    intro st st' _ h hi
    simp only [run_lines] at h
    injection h with h2
    exact h2 ▸ hi
  | cons l t ih =>
    intro st st' hall h hi
    have hl : starts_with l (str "@@") = false := hall l (by simp)
    cases hp : process_line st l with
    | ok st2 =>
      rw [run_lines, hp] at h
      obtain ⟨lt, _, hbs⟩ := process_line_body st st2 l hl hp
      exact ih st2 st' (fun x hx => hall x (by simp [hx])) h
        (hbs ▸ body_step_inv ls rs st lt (l.drop 1) hi)
    | err e => rw [run_lines, hp] at h; cases h
    | panic => rw [run_lines, hp] at h; cases h

theorem process_header_init (l0 : Str) (st1 : PState) (ls rs : Nat)
    (hs : starts_with l0 (str "@@") = true)
    (hh : parse_header l0 = PRes.ok (ls, rs))
    (h : process_line init_state l0 = PRes.ok st1) : LoopInv ls rs st1 := by
  rw [process_line, if_pos hs, hh] at h
  injection h with h2
  rw [← h2]
  exact ⟨rfl, rfl, by simp [init_state], by simp [init_state], by simp [init_state],
         by simp [init_state], fun _ => ⟨by simp [init_state], by simp [init_state]⟩,
         by simp [init_state], by simp [init_state]⟩

theorem starts_atat_shape (s : Str) (hs : starts_with s (str "@@") = true) :
    ∃ t, s = '@' :: '@' :: t := by
  rw [str_atat] at hs
  cases s with
  | nil => simp [starts_with] at hs
  | cons c1 t1 =>
    cases t1 with
    | nil => simp [starts_with] at hs
    | cons c2 t2 =>
      simp only [starts_with] at hs
      by_cases h1 : c1 = '@'
      · by_cases h2 : c2 = '@'
        · exact ⟨t2, by rw [h1, h2]⟩
        · rw [if_pos h1, if_neg h2] at hs; cases hs
      · rw [if_neg h1] at hs; cases hs

theorem splitNl_head_of_atat (hunk : Str) (hs : starts_with hunk (str "@@") = true) :
    ∃ l0 rest, splitNl hunk = l0 :: rest ∧ starts_with l0 (str "@@") = true := by
  obtain ⟨t, ht⟩ := starts_atat_shape hunk hs
  subst ht
  obtain ⟨p, ps, hp⟩ : ∃ p ps, splitNl t = p :: ps := by
    cases h : splitNl t with
    | nil => exact absurd h (splitNl_ne_nil t)
    | cons a b => exact ⟨a, b, rfl⟩
  have h1 : splitNl ('@' :: t) = ('@' :: p) :: ps :=
    splitNl_cons_other '@' t p ps (by decide) hp
  have h2 : splitNl ('@' :: '@' :: t) = ('@' :: '@' :: p) :: ps :=
    splitNl_cons_other '@' ('@' :: t) ('@' :: p) ps (by decide) h1
  exact ⟨'@' :: '@' :: p, ps, h2, by simp [starts_with, str_atat]⟩

theorem parsed_loopInv (hunk path : Str) (d : Diff) (hsing : singleHunk hunk)
    (h : from_only_hunk hunk path = PRes.ok d) :
    ∃ ls rs,
      d.original_range = (ls, ls + d.left_lines.length) ∧
      d.range = (rs, rs + d.right_lines.length) ∧
      List.Pairwise ctxR d.context ∧
      (∀ r ∈ d.context, r.1 ≤ r.2 ∧ r.2 ≤ rs + d.right_lines.length) ∧
      d.associated_line_pairs.head? = some (ls, rs) ∧
      d.associated_line_pairs.getLast? =
        some (ls + d.left_lines.length, rs + d.right_lines.length) := by
  obtain ⟨hs, st, hr, hd⟩ := from_only_hunk_ok_elim hunk path d h
  obtain ⟨l0, rest, hsplit, hl0⟩ := splitNl_head_of_atat hunk hs
  rw [hsplit] at hr
  cases hp : process_line init_state l0 with
  | ok st1 =>
    rw [run_lines, hp] at hr
    dsimp only at hr
    have hdr : ∃ ls rs, parse_header l0 = PRes.ok (ls, rs) := by
      rw [process_line, if_pos hl0] at hp
      cases hph : parse_header l0 with
      | ok pr => exact ⟨pr.1, pr.2, by simp [hph]⟩
      | err e => rw [hph] at hp; dsimp only at hp; cases hp
      | panic => rw [hph] at hp; dsimp only at hp; cases hp
    obtain ⟨ls, rs, hph⟩ := hdr
    have hi1 : LoopInv ls rs st1 := process_header_init l0 st1 ls rs hl0 hph hp
    have hrest : ∀ l ∈ rest, starts_with l (str "@@") = false := by
      intro l hl
      have : l ∈ (splitNl hunk).tail := by rw [hsplit]; exact hl
      exact hsing l this
    have hist : LoopInv ls rs st := run_lines_inv ls rs rest st1 st hrest hr hi1
    obtain ⟨g1, g2, g3, g4, g5, g6, g7, g8, g9⟩ := hist
    refine ⟨ls, rs, ?_, ?_, ?_, ?_, ?_, ?_⟩ <;> rw [hd] <;> dsimp only
    · rw [g1, g3]
    · rw [g2, g4]
    · exact g5
    · rw [← g4]; exact g6
    · exact g8
    · rw [← g3, ← g4]; exact g9
  | err e => rw [run_lines, hp] at hr; dsimp only at hr; cases hr
  | panic => rw [run_lines, hp] at hr; dsimp only at hr; cases hr

theorem process_line_nonheader (st : PState) (line : Str)
    (hnp : starts_with line (str "@@") = false) :
    process_line st line =
      (match classify line with
       | none => PRes.err DiffError.Invalid
       | some lt => PRes.ok (body_step st lt (line.drop 1))) := by
  rw [process_line, hnp]
  simp

theorem body_step_pairs_ne (st : PState) (lt : LineType) (rest : Str) :
    (body_step st lt rest).pairs ≠ [] := by
  cases lt <;> simp only [body_step] <;> split <;> (try split) <;> simp

theorem process_line_pairs_ne (st st2 : PState) (line : Str)
    (h : process_line st line = PRes.ok st2) : st2.pairs ≠ [] := by
  by_cases hs : starts_with line (str "@@") = true
  · rw [process_line, if_pos hs] at h
    cases hph : parse_header line with
    | ok pr =>
      obtain ⟨a, b⟩ := pr
      rw [hph] at h
      dsimp only at h
      injection h with h2
      rw [← h2]
      simp
    | err e => rw [hph] at h; dsimp only at h; cases h
    | panic => rw [hph] at h; dsimp only at h; cases h
  · have hs2 : starts_with line (str "@@") = false := by
      cases hb : starts_with line (str "@@")
      · rfl
      · exact absurd hb hs
    rw [process_line_nonheader st line hs2] at h
    cases hc : classify line with
    | none => rw [hc] at h; cases h
    | some lt =>
      rw [hc] at h
      injection h with h2
      rw [← h2]
      exact body_step_pairs_ne st lt (line.drop 1)

theorem run_lines_pairs_ne (lines : List Str) :
    ∀ st st', run_lines st lines = PRes.ok st' → st.pairs ≠ [] → st'.pairs ≠ [] := by
  induction lines with
  | nil =>
    intro st st' h hne
    rw [run_lines] at h
    injection h with h2
    exact h2 ▸ hne
  | cons l t ih =>
    intro st st' h hne
    cases hp : process_line st l with
    | ok st2 =>
      rw [run_lines, hp] at h
      dsimp only at h
      exact ih st2 st' h (process_line_pairs_ne st st2 l hp)
    | err e => rw [run_lines, hp] at h; dsimp only at h; cases h
    | panic => rw [run_lines, hp] at h; dsimp only at h; cases h

theorem parsed_pairs_ne (hunk path : Str) (d : Diff)
    (h : from_only_hunk hunk path = PRes.ok d) :
    d.associated_line_pairs ≠ [] := by
  obtain ⟨hs, st, hr, hd⟩ := from_only_hunk_ok_elim hunk path d h
  obtain ⟨l0, rest, hsplit, hl0⟩ := splitNl_head_of_atat hunk hs
  rw [hsplit] at hr
  cases hp : process_line init_state l0 with
  | ok st1 =>
    rw [run_lines, hp] at hr
    dsimp only at hr
    have : st.pairs ≠ [] :=
      run_lines_pairs_ne rest st1 st hr (process_line_pairs_ne init_state st1 l0 hp)
    rw [hd]
    exact this
  | err e => rw [run_lines, hp] at hr; dsimp only at hr; cases hr
  | panic => rw [run_lines, hp] at hr; dsimp only at hr; cases hr

theorem render_count_some (lines : List Str) :
    ∀ (n i : Nat), i + n ≤ lines.length → ∃ out, render_count lines i n = some out := by
  intro n
  induction n with
  | zero => intro i _; exact ⟨[], rfl⟩
  | succ m ih =>
    intro i hle
    have hi : i < lines.length := by omega
    obtain ⟨l, hl⟩ : ∃ l, lines.get? i = some l :=
      ⟨lines.get ⟨i, hi⟩, List.get?_eq_get hi⟩
    obtain ⟨r, hr⟩ := ih (i + 1) (by omega)
    refine ⟨l ++ '\n' :: r, ?_⟩
    rw [render_count, hl, hr]
    rfl

theorem run_lines_no_parse (lines : List Str) :
    ∀ st, (∀ l ∈ lines, starts_with l (str "@@") = false) →
      run_lines st lines ≠ PRes.err DiffError.Parse := by
  induction lines with
  | nil => intro st _ h; rw [run_lines] at h; cases h
  | cons l t ih =>
    intro st hall h
    have hl : starts_with l (str "@@") = false := hall l (by simp)
    cases hp : process_line st l with
    | ok st2 =>
      rw [run_lines, hp] at h
      dsimp only at h
      exact ih st2 (fun x hx => hall x (by simp [hx])) h
    | err e =>
      rw [run_lines, hp] at h
      dsimp only at h
      injection h with h3
      rw [h3] at hp
      rw [process_line_nonheader st l hl] at hp
      cases hc : classify l with
      | none =>
        rw [hc] at hp
        injection hp with h4
        cases h4
      | some lt => rw [hc] at hp; cases hp
    | panic =>
      rw [process_line_nonheader st l hl] at hp
      cases hc : classify l with
      | none => rw [hc] at hp; cases hp
      | some lt => rw [hc] at hp; cases hp

theorem Diff_text_of_not_trailing (d : Diff) (h : d.trailing_newline = false) :
    Diff.text d = joinSep d.right_lines := by
  rw [Diff.text, h]
  simp [strip_joinNl]

theorem Diff_original_text_of_not_trailing (d : Diff) (h : d.trailing_newline = false) :
    Diff.original_text d = joinSep d.left_lines := by
  rw [Diff.original_text, h]
  simp [strip_joinNl]

theorem parse_header_parse_iff (line : Str) :
    parse_header line = PRes.err DiffError.Parse ↔ header_missing_tok line := by
  unfold parse_header header_missing_tok
  cases h1 : find_char (header_data line) '-' with
  | none => simp [h1]
  | some di =>
    cases h2 : find_char (header_data line) ' ' with
    | none => simp [h1, h2]
    | some osi =>
      by_cases h3 : di + 1 ≤ osi
      · cases h4 : parse_u32 (left_tok (header_data line) (di + 1) osi) with
        | none => simp [h1, h2, h3, h4]
        | some v =>
          cases h5 : find_char (header_data line) '+' with
          | none => simp [h1, h2, h3, h4, h5]
          | some pi =>
            cases h6 : parse_u32 (right_tok (header_data line) (pi + 1)) with
            | none => simp [h1, h2, h3, h4, h5, h6]
            | some rv => simp [h1, h2, h3, h4, h5, h6]
      · simp [h1, h2, h3]

theorem parse_header_left_numeric_invalid (line : Str) (di osi : Nat)
    (h1 : find_char (header_data line) '-' = some di)
    (h2 : find_char (header_data line) ' ' = some osi)
    (h3 : di + 1 ≤ osi)
    (h4 : parse_u32 (left_tok (header_data line) (di + 1) osi) = none) :
    parse_header line = PRes.err DiffError.Invalid := by
  unfold parse_header
  simp [h1, h2, h3, h4]

theorem parse_header_right_numeric_invalid (line : Str) (di osi v pi : Nat)
    (h1 : find_char (header_data line) '-' = some di)
    (h2 : find_char (header_data line) ' ' = some osi)
    (h3 : di + 1 ≤ osi)
    (h4 : parse_u32 (left_tok (header_data line) (di + 1) osi) = some v)
    (h5 : find_char (header_data line) '+' = some pi)
    (h6 : parse_u32 (right_tok (header_data line) (pi + 1)) = none) :
    parse_header line = PRes.err DiffError.Invalid := by
  unfold parse_header
  simp [h1, h2, h3, h4, h5, h6]

theorem from_only_hunk_err_iff (hunk path : Str)
    (hs : starts_with hunk (str "@@") = true) (e : DiffError) :
    from_only_hunk hunk path = PRes.err e ↔
      run_lines init_state (splitNl hunk) = PRes.err e := by
  rw [from_only_hunk, if_pos hs]
  cases hr : run_lines init_state (splitNl hunk) <;> simp

theorem from_only_hunk_parse_iff (hunk path : Str) (hsing : singleHunk hunk) :
    from_only_hunk hunk path = PRes.err DiffError.Parse ↔
      starts_with hunk (str "@@") = false ∨
      ∃ l0 rest, splitNl hunk = l0 :: rest ∧
        parse_header l0 = PRes.err DiffError.Parse := by
  by_cases hs : starts_with hunk (str "@@") = true
  · obtain ⟨l0, rest, hsplit, hl0⟩ := splitNl_head_of_atat hunk hs
    have hrest : ∀ l ∈ rest, starts_with l (str "@@") = false := by
      intro l hl
      have : l ∈ (splitNl hunk).tail := by rw [hsplit]; exact hl
      exact hsing l this
    rw [from_only_hunk_err_iff hunk path hs DiffError.Parse, hsplit, run_lines,
        process_line, if_pos hl0]
    have hrhs_no : (starts_with hunk (str "@@") = false ∨
        ∃ l0' rest', l0 :: rest = l0' :: rest' ∧
          parse_header l0' = PRes.err DiffError.Parse) →
        parse_header l0 = PRes.err DiffError.Parse := by
      intro h
      rcases h with h | ⟨l0', rest', he, hp'⟩
      · rw [hs] at h; cases h
      · injection he with he1 he2
        rw [he1]
        exact hp'
    cases hph : parse_header l0 with
    | ok pr =>
      obtain ⟨a, b⟩ := pr
      dsimp only
      constructor
      · intro h
        exact absurd h (run_lines_no_parse rest _ hrest)
      · intro h
        rw [hph] at hrhs_no
        have := hrhs_no (by rw [← hsplit] at h ⊢; exact h)
        cases this
    | err e2 =>
      dsimp only
      constructor
      · intro h
        injection h with h2
        rw [h2] at hph
        exact Or.inr ⟨l0, rest, rfl, hph⟩
      · intro h
        have := hrhs_no (by rw [← hsplit] at h ⊢; exact h)
        rw [hph] at this
        injection this with h3
        rw [h3]
    | panic =>
      dsimp only
      constructor
      · intro h; cases h
      · intro h
        have := hrhs_no (by rw [← hsplit] at h ⊢; exact h)
        rw [hph] at this
        cases this
  · have hs2 : starts_with hunk (str "@@") = false := by
      cases hb : starts_with hunk (str "@@")
      · rfl
      · exact absurd hb hs
    rw [from_only_hunk, hs2]
    simp [hs2]


/-- Claim C7: for every successfully parsed (single) hunk, the length of
`left_lines` equals the extent of `original_range` and the length of
`right_lines` equals the extent of `range`. -/
theorem c7_line_vector_lengths (hunk path : Str) (d : Diff) (hsing : singleHunk hunk)
    (h : from_only_hunk hunk path = PRes.ok d) :
    d.left_lines.length = d.original_range.2 - d.original_range.1 ∧
    d.right_lines.length = d.range.2 - d.range.1 := by
  obtain ⟨ls, rs, h1, h2, _, _, _, _⟩ := parsed_loopInv hunk path d hsing h
  rw [h1, h2]
  dsimp only
  omega

theorem c7_witness :
    from_only_hunk exHunk (str "f") = PRes.ok exDiff ∧
    exDiff.left_lines.length = exDiff.original_range.2 - exDiff.original_range.1 ∧
    exDiff.right_lines.length = exDiff.range.2 - exDiff.range.1 :=
  ⟨by decide, c7_line_vector_lengths exHunk (str "f") exDiff (by decide) (by decide)⟩

/-- Claim C8: for every successfully parsed (single) hunk, the recorded
context ranges are pairwise disjoint (each ends no later than the next
starts) and their start coordinates are ascending. -/
theorem c8_context_ordered (hunk path : Str) (d : Diff) (hsing : singleHunk hunk)
    (h : from_only_hunk hunk path = PRes.ok d) :
    List.Pairwise (fun a b : Nat × Nat => a.2 ≤ b.1 ∧ a.1 ≤ b.1) d.context ∧
    ∀ r ∈ d.context, r.1 ≤ r.2 := by
  obtain ⟨ls, rs, _, _, h3, h4, _, _⟩ := parsed_loopInv hunk path d hsing h
  exact ⟨h3, fun r hr => (h4 r hr).1⟩

theorem c8_witness :
    List.Pairwise (fun a b : Nat × Nat => a.2 ≤ b.1 ∧ a.1 ≤ b.1) exDiff.context ∧
    ∀ r ∈ exDiff.context, r.1 ≤ r.2 :=
  c8_context_ordered exHunk (str "f") exDiff (by decide) (by decide)

/-- Claim C10: for every successfully parsed single hunk, the difference
between the last and first associated line pair values on a side equals the
length of that side's line vector, and whenever `text_part`'s containment
validation passes for a same-side request on a well-formed comment range,
every index the rendering loop computes is within the bounds of the
selected line vector, so the call returns `ok` (no out-of-range access). -/
theorem c10_text_part_in_bounds (hunk path : Str) (d : Diff) (c f l : Nat × Nat)
    (hsing : singleHunk hunk) (h : from_only_hunk hunk path = PRes.ok d)
    (hf : d.associated_line_pairs.head? = some f)
    (hl : d.associated_line_pairs.getLast? = some l)
    (hwf : c.1 ≤ c.2) :
    (l.1 - f.1 = d.left_lines.length ∧ l.2 - f.2 = d.right_lines.length) ∧
    (¬ (c.1 < f.1 ∨ c.2 > l.1) →
      (∀ i, c.1 - f.1 ≤ i → i < c.2 - f.1 → i < d.left_lines.length) ∧
      ∃ out, text_part d c CommentSide.LL = PRes.ok out) ∧
    (¬ (c.1 < f.2 ∨ c.2 > l.2) →
      (∀ i, c.1 - f.2 ≤ i → i < c.2 - f.2 → i < d.right_lines.length) ∧
      ∃ out, text_part d c CommentSide.RR = PRes.ok out) := by
  obtain ⟨ls, rs, h1, h2, _, _, hh, hg⟩ := parsed_loopInv hunk path d hsing h
  rw [hh] at hf
  rw [hg] at hl
  injection hf with hf
  injection hl with hl
  subst hf
  subst hl
  dsimp only
  refine ⟨⟨by omega, by omega⟩, ?_, ?_⟩
  · intro hcont
    push_neg at hcont
    obtain ⟨hc1, hc2⟩ := hcont
    refine ⟨fun i hi1 hi2 => by omega, ?_⟩
    show ∃ out, text_part_side d d.left_lines (fun p => p.1) c = PRes.ok out
    rw [text_part_side, hh, hg]
    dsimp only
    rw [if_neg (by omega)]
    rw [if_pos (by omega)]
    obtain ⟨out, hout⟩ :=
      render_count_some d.left_lines
        ((c.1 - ls + c.2 - c.1) - (c.1 - ls)) (c.1 - ls) (by omega)
    rw [hout]
    exact ⟨_, rfl⟩
  · intro hcont
    push_neg at hcont
    obtain ⟨hc1, hc2⟩ := hcont
    refine ⟨fun i hi1 hi2 => by omega, ?_⟩
    show ∃ out, text_part_side d d.right_lines (fun p => p.2) c = PRes.ok out
    rw [text_part_side, hh, hg]
    dsimp only
    rw [if_neg (by omega)]
    rw [if_pos (by omega)]
    obtain ⟨out, hout⟩ :=
      render_count_some d.right_lines
        ((c.1 - rs + c.2 - c.1) - (c.1 - rs)) (c.1 - rs) (by omega)
    rw [hout]
    exact ⟨_, rfl⟩

theorem c10_witness :
    (∀ i, 2 - 1 ≤ i → i < 3 - 1 → i < exDiff.right_lines.length) ∧
    ∃ out, text_part exDiff (2, 3) CommentSide.RR = PRes.ok out :=
  (c10_text_part_in_bounds exHunk (str "f") exDiff (2, 3) (1, 1) (5, 5)
    (by decide) (by decide) (by decide) (by decide) (by decide)).2.2 (by decide)

theorem text_part_side_invalid (d : Diff) (lines : List Str) (proj : Nat × Nat → Nat)
    (c f l : Nat × Nat)
    (hf : d.associated_line_pairs.head? = some f)
    (hl : d.associated_line_pairs.getLast? = some l)
    (hc : c.1 < proj f ∨ c.2 > proj l) :
    text_part_side d lines proj c = PRes.err DiffError.Invalid := by
  rw [text_part_side, hf, hl]
  dsimp only
  rw [if_pos hc]

/-- Claim C5 (amended): a cross-side `text_part` request aborts through
`panic!("not implemented")` rather than returning `InvalidError`; a
same-side request whose range is not contained in the span of the first
and last associated line pairs returns `InvalidError`. -/
theorem c5_text_part_failures (hunk path : Str) (d : Diff) (c f l : Nat × Nat)
    (_hparse : from_only_hunk hunk path = PRes.ok d)
    (hf : d.associated_line_pairs.head? = some f)
    (hl : d.associated_line_pairs.getLast? = some l) :
    text_part d c CommentSide.LR = PRes.panic ∧
    text_part d c CommentSide.RL = PRes.panic ∧
    ((c.1 < f.1 ∨ c.2 > l.1) →
      text_part d c CommentSide.LL = PRes.err DiffError.Invalid) ∧
    ((c.1 < f.2 ∨ c.2 > l.2) →
      text_part d c CommentSide.RR = PRes.err DiffError.Invalid) := by
  refine ⟨rfl, rfl, ?_, ?_⟩
  · intro hc
    exact text_part_side_invalid d d.left_lines (fun p => p.1) c f l hf hl hc
  · intro hc
    exact text_part_side_invalid d d.right_lines (fun p => p.2) c f l hf hl hc

theorem c5_counterexample :
    from_only_hunk exHunk (str "f") = PRes.ok exDiff ∧
    text_part exDiff (2, 3) CommentSide.LR = PRes.panic ∧
    text_part exDiff (2, 3) CommentSide.LR ≠ PRes.err DiffError.Invalid := by decide

theorem c5_witness :
    text_part exDiff (2, 3) CommentSide.LR = PRes.panic ∧
    text_part exDiff (0, 3) CommentSide.RR = PRes.err DiffError.Invalid := by
  have h := c5_text_part_failures exHunk (str "f") exDiff (0, 3) (1, 1) (5, 5)
    (by decide) (by decide) (by decide)
  exact ⟨h.1, h.2.2.2 (by decide)⟩

/-- Claim C9 (amended): any input containing an empty split segment — in
particular any input ending in a newline — is rejected by `from_only_hunk`
(with `InvalidError` when parsing reaches the empty segment, though an
earlier header failure may yield `ParseError` first); consequently every
successfully constructed `Diff` has `trailing_newline = false`. -/
theorem c9_empty_segment_rejected (hunk path : Str) :
    ([] ∈ splitNl hunk → ∀ d, from_only_hunk hunk path ≠ PRes.ok d) ∧
    (∀ d, from_only_hunk hunk path = PRes.ok d → d.trailing_newline = false) := by
  constructor
  · intro hmem d h
    obtain ⟨hs, st, hr, hd⟩ := from_only_hunk_ok_elim hunk path d h
    exact run_lines_ne_ok_of_mem_nil _ _ hmem st hr
  · intro d h
    exact (from_only_hunk_trailing hunk path d h).2

theorem c9_counterexample :
    [] ∈ splitNl (str "@@\n") ∧
    from_only_hunk (str "@@\n") (str "f") = PRes.err DiffError.Parse ∧
    from_only_hunk (str "@@\n") (str "f") ≠ PRes.err DiffError.Invalid := by decide

theorem c9_witness :
    (∀ d, from_only_hunk (str "@@ -1,1 +1,1 @@\n a\n") (str "f") ≠ PRes.ok d) ∧
    from_only_hunk (str "@@ -1,1 +1,1 @@\n a\n") (str "f") = PRes.err DiffError.Invalid :=
  ⟨(c9_empty_segment_rejected (str "@@ -1,1 +1,1 @@\n a\n") (str "f")).1 (by decide),
   by decide⟩

/-- Claim C3: a parsed hunk whose raw text does not end in a newline yields
`text()`/`original_text()` as the lines joined without a trailing
separator; one whose raw text does end in a newline retains the trailing
separator (vacuously — such an input never parses, see C9). -/
theorem c3_trailing_newline_fidelity (hunk path : Str) (d : Diff)
    (h : from_only_hunk hunk path = PRes.ok d) :
    (ends_with_newline hunk = false →
      Diff.text d = joinSep d.right_lines ∧
      Diff.original_text d = joinSep d.left_lines) ∧
    (ends_with_newline hunk = true →
      Diff.text d = joinNl d.right_lines ∧
      Diff.original_text d = joinNl d.left_lines) := by
  obtain ⟨hne, htn⟩ := from_only_hunk_trailing hunk path d h
  constructor
  · intro _
    exact ⟨Diff_text_of_not_trailing d htn, Diff_original_text_of_not_trailing d htn⟩
  · intro hcon
    rw [hne] at hcon
    cases hcon

theorem c3_witness :
    Diff.text exDiff = joinSep exDiff.right_lines ∧
    Diff.original_text exDiff = joinSep exDiff.left_lines :=
  (c3_trailing_newline_fidelity exHunk (str "f") exDiff (by decide)).1 (by decide)

/-- Claim C2 (code bug): for the hunk `@@ -5,0 +5,2 @@` with two addition
lines, the parser records the context range `5..6` (covering the first
added line, because `previous_line_type` is initialised to `Context`), and
`get_context` returns one rendered run `"a\n"` instead of reporting no
context as the specification states. -/
theorem c2_context_recorded_bug :
    from_only_hunk c2Hunk (str "f") = PRes.ok c2Diff ∧
    c2Diff.context = [(5, 6)] ∧
    get_context c2Diff none = PRes.ok (some [str "a\n"]) ∧
    get_context c2Diff none ≠ PRes.ok (none : Option (List Str)) := by decide

/-- Claim C4 (amended): `ParseError` arises exactly from header structure —
the text does not begin with `@@`, or a header line lacks the `-` token,
the space separator, or (once the left number parses) the `+` token — while
a numeric token that fails to parse yields `InvalidError` (not
`ParseError`, since `Error::from_parse_int_error` maps to
`Error::Invalid`), and a body line with an unrecognised leading character
yields `InvalidError`. -/
theorem c4_error_kinds :
    (∀ hunk path : Str, singleHunk hunk →
      (from_only_hunk hunk path = PRes.err DiffError.Parse ↔
        starts_with hunk (str "@@") = false ∨
        ∃ l0 rest, splitNl hunk = l0 :: rest ∧ header_missing_tok l0)) ∧
    (∀ line : Str, parse_header line = PRes.err DiffError.Parse ↔
      header_missing_tok line) ∧
    (∀ (line : Str) (di osi : Nat),
      find_char (header_data line) '-' = some di →
      find_char (header_data line) ' ' = some osi →
      di + 1 ≤ osi →
      parse_u32 (left_tok (header_data line) (di + 1) osi) = none →
      parse_header line = PRes.err DiffError.Invalid) ∧
    (∀ (line : Str) (di osi v pi : Nat),
      find_char (header_data line) '-' = some di →
      find_char (header_data line) ' ' = some osi →
      di + 1 ≤ osi →
      parse_u32 (left_tok (header_data line) (di + 1) osi) = some v →
      find_char (header_data line) '+' = some pi →
      parse_u32 (right_tok (header_data line) (pi + 1)) = none →
      parse_header line = PRes.err DiffError.Invalid) ∧
    (∀ (st : PState) (line : Str), starts_with line (str "@@") = false →
      classify line = none → process_line st line = PRes.err DiffError.Invalid) := by
  refine ⟨?_, parse_header_parse_iff, parse_header_left_numeric_invalid,
          parse_header_right_numeric_invalid, ?_⟩
  · intro hunk path hsing
    rw [from_only_hunk_parse_iff hunk path hsing]
    simp only [parse_header_parse_iff]
  · intro st line hns hc
    rw [process_line_nonheader st line hns, hc]

theorem c4_counterexample :
    from_only_hunk (str "@@ -x,1 +1,1 @@\n a") (str "f") = PRes.err DiffError.Invalid ∧
    from_only_hunk (str "@@ -x,1 +1,1 @@\n a") (str "f") ≠ PRes.err DiffError.Parse := by
  decide

theorem c4_witness :
    from_only_hunk (str "@@") (str "f") = PRes.err DiffError.Parse :=
  (c4_error_kinds.1 (str "@@") (str "f") (by decide)).mpr
    (Or.inr ⟨str "@@", [], by decide, Or.inl (by decide)⟩)

/-- Claim C1 (amended): for a File-subject comment (with a well-formed
1-based line number) the resolver returns the literal range, but for a
Line-subject comment whose `diff_hunk` does not parse, `line_range` panics
on the `.unwrap()` of `Diff::from_only_hunk` instead of returning the
literal fallback range. -/
theorem c1_line_range_amended (c : ReviewComment) (text : Str)
    (hln : match c.original_start_line with
           | some l => 1 ≤ l
           | none => 1 ≤ c.original_line) :
    (get_subject_type c = SubjectType.File →
      line_range c text =
        some ((match c.original_start_line with
               | some l => l - 1
               | none => c.original_line - 1), c.original_line)) ∧
    (get_subject_type c = SubjectType.Line →
      (match c.original_start_line with
       | some l => l - 1
       | none => c.original_line - 1) ≤ c.original_line →
      (∀ d, from_only_hunk c.diff_hunk c.path ≠ PRes.ok d) →
      line_range c text = none) := by
  cases hosl : c.original_start_line with
  | some l =>
    rw [hosl] at hln
    have hcs : csub l 1 = some (l - 1) := by rw [csub, if_pos hln]
    constructor
    · intro hsub
      rw [line_range, hosl]
      dsimp only
      rw [hcs]
      dsimp only
      rw [hsub]
    · intro hsub hble hnp
      rw [line_range, hosl]
      dsimp only
      rw [hcs]
      dsimp only
      rw [hsub]
      have hcs2 : csub c.original_line (l - 1) = some (c.original_line - (l - 1)) := by
        rw [csub, if_pos hble]
      rw [hcs2]
      dsimp only
      cases hfo : from_only_hunk c.diff_hunk c.path with
      | ok d => exact absurd hfo (hnp d)
      | err e2 => rfl
      | panic => rfl
  | none =>
    rw [hosl] at hln
    have hcs : csub c.original_line 1 = some (c.original_line - 1) := by
      rw [csub, if_pos hln]
    constructor
    · intro hsub
      rw [line_range, hosl]
      dsimp only
      rw [hcs]
      dsimp only
      rw [hsub]
    · intro hsub hble hnp
      rw [line_range, hosl]
      dsimp only
      rw [hcs]
      dsimp only
      rw [hsub]
      have hcs2 : csub c.original_line (c.original_line - 1) =
          some (c.original_line - (c.original_line - 1)) := by
        rw [csub, if_pos hble]
      rw [hcs2]
      dsimp only
      cases hfo : from_only_hunk c.diff_hunk c.path with
      | ok d => exact absurd hfo (hnp d)
      | err e2 => rfl
      | panic => rfl

theorem c1_counterexample :
    get_subject_type cexComment = SubjectType.Line ∧
    from_only_hunk cexComment.diff_hunk cexComment.path = PRes.err DiffError.Parse ∧
    line_range cexComment (str "a") = none ∧
    line_range cexComment (str "a") ≠ some (0, 1) := by decide

theorem c1_witness :
    line_range fileComment (str "") = some (2, 5) ∧
    line_range cexComment (str "a") = none := by
  constructor
  · exact (c1_line_range_amended fileComment (str "") (by show (1:Nat) ≤ 3; decide)).1 (by decide)
  · refine (c1_line_range_amended cexComment (str "a") (by show (1:Nat) ≤ 1; decide)).2
      (by decide) (by decide) ?_
    intro d hd
    have he : from_only_hunk cexComment.diff_hunk cexComment.path =
        PRes.err DiffError.Parse := by decide
    rw [he] at hd
    cases hd

/-- Claim C6: for a Line-subject comment whose parsed hunk renders a
non-empty `text()` found verbatim in the current document, the resolved
range starts at the zero-based line index of the match (the count of
preceding newline separators) and spans the original extent
`original_line - ((original_start_line or original_line) - 1)`; if the
rendered text is empty or not found, the result is the literal
`((original_start_line or original_line) - 1, original_line)`. -/
theorem c6_resolver_relocation (c : ReviewComment) (text : Str) (d : Diff)
    (hsub : get_subject_type c = SubjectType.Line)
    (hln : match c.original_start_line with
           | some l => 1 ≤ l ∧ l ≤ c.original_line
           | none => 1 ≤ c.original_line)
    (hp : from_only_hunk c.diff_hunk c.path = PRes.ok d) :
    (∀ index, Diff.text d ≠ [] → substrPos text (Diff.text d) = some index →
      line_range c text =
        some ((text.take index).count '\n',
          (text.take index).count '\n' +
            (c.original_line - (match c.original_start_line with
                                | some l => l - 1
                                | none => c.original_line - 1)))) ∧
    ((Diff.text d = [] ∨ substrPos text (Diff.text d) = none) →
      line_range c text =
        some ((match c.original_start_line with
               | some l => l - 1
               | none => c.original_line - 1), c.original_line)) := by
  cases hosl : c.original_start_line with
  | some l =>
    rw [hosl] at hln
    obtain ⟨hl1, hl2⟩ := hln
    have hcs : csub l 1 = some (l - 1) := by rw [csub, if_pos hl1]
    have hcs2 : csub c.original_line (l - 1) = some (c.original_line - (l - 1)) := by
      rw [csub, if_pos (by omega)]
    constructor
    · intro index hne hfound
      rw [line_range, hosl]
      dsimp only
      rw [hcs]
      dsimp only
      rw [hsub, hcs2]
      dsimp only
      rw [hp]
      dsimp only
      rw [if_neg (by simpa [List.length_eq_zero] using hne), hfound]
    · intro hcase
      rw [line_range, hosl]
      dsimp only
      rw [hcs]
      dsimp only
      rw [hsub, hcs2]
      dsimp only
      rw [hp]
      dsimp only
      rcases hcase with hempty | hnone
      · rw [if_pos (by simpa [List.length_eq_zero] using hempty)]
        simp only [Option.some.injEq, Prod.mk.injEq]
        exact ⟨trivial, by omega⟩
      · rw [if_neg ?hne, hnone]
        · simp only [Option.some.injEq, Prod.mk.injEq]
          exact ⟨trivial, by omega⟩
        · case hne =>
            intro hlen
            rw [List.length_eq_zero] at hlen
            rw [hlen] at hnone
            rw [show substrPos text [] = some 0 from by
              cases text <;> simp [substrPos, starts_with]] at hnone
            cases hnone
  | none =>
    rw [hosl] at hln
    have hcs : csub c.original_line 1 = some (c.original_line - 1) := by
      rw [csub, if_pos hln]
    have hcs2 : csub c.original_line (c.original_line - 1) =
        some (c.original_line - (c.original_line - 1)) := by
      rw [csub, if_pos (by omega)]
    constructor
    · intro index hne hfound
      rw [line_range, hosl]
      dsimp only
      rw [hcs]
      dsimp only
      rw [hsub, hcs2]
      dsimp only
      rw [hp]
      dsimp only
      rw [if_neg (by simpa [List.length_eq_zero] using hne), hfound]
    · intro hcase
      rw [line_range, hosl]
      dsimp only
      rw [hcs]
      dsimp only
      rw [hsub, hcs2]
      dsimp only
      rw [hp]
      dsimp only
      rcases hcase with hempty | hnone
      · rw [if_pos (by simpa [List.length_eq_zero] using hempty)]
        simp only [Option.some.injEq, Prod.mk.injEq]
        exact ⟨trivial, by omega⟩
      · rw [if_neg ?hne2, hnone]
        · simp only [Option.some.injEq, Prod.mk.injEq]
          exact ⟨trivial, by omega⟩
        · case hne2 =>
            intro hlen
            rw [List.length_eq_zero] at hlen
            rw [hlen] at hnone
            rw [show substrPos text [] = some 0 from by
              cases text <;> simp [substrPos, starts_with]] at hnone
            cases hnone

theorem c6_witness : line_range wComment wDoc = some (2, 3) := by
  have h := (c6_resolver_relocation wComment wDoc wDiff (by decide)
    (by show (1:Nat) ≤ 1; decide) (by decide)).1 4 (by decide) (by decide)
  rw [h]
  decide
